import Mathlib

/-!
Verification of the concurrent task runner in `lisa/util/__init__.py`:
the functions `run_in_threads` (lines 199-247) and `_cancel_threads`
(lines 176-196), together with the semantics of the `concurrent.futures`
primitives they call (`Future.done`, `Future.cancel`, `Future.result`,
`Future.exception`, `ThreadPoolExecutor`, `add_done_callback`).

Modelling choices (shallow embedding):

* Concurrency is reduced to a discrete clock.  Each submitted task is
  described by a `TaskSpec`: its eventual `Outcome` (a success value or a
  raised error), the clock tick `startAt` at which the pool starts
  executing it, and the tick `completeAt` at which it finishes (both are
  environment parameters abstracting the pool scheduler).  The runner's
  clock advances by one tick per `time.sleep(0.1)` of the polling loop and
  jumps forward when a blocking `future.result()` waits for a completion.

* `concurrent.futures.Future` semantics, per the CPython documentation:
  `done()` is true once the future finished or was cancelled; `cancel()`
  succeeds only while the task has not started, and transitions the future
  to the cancelled state; `result()` on a cancelled future raises
  `CancelledError`, otherwise it blocks until completion and returns the
  value or re-raises the task's error; `exception()` on a done future
  raises `CancelledError` if the future was cancelled, otherwise it
  returns the error or `None`.

* The `KeyboardInterrupt` that `run_in_threads` catches is modelled as a
  one-shot signal `intr : Option Nat`: if `intr = some t`, the interrupt
  is delivered at the first `time.sleep` of the polling loop whose clock
  tick is at least `t`.

* The optional `completed_callback` is side-effect only, so it is
  modelled by a flag `hasCb` plus counters: `St.cbFalse` counts the
  explicit `completed_callback(False)` calls made by `_cancel_threads`,
  and the done-callbacks registered with `add_done_callback` (which fire
  exactly once per future when it reaches a terminal state) are counted
  by `doneCallbackCount` over the final state.

* Python exceptions become the `Err` type; a `try/finally` whose cleanup
  raises replaces the in-flight exception, exactly as Python does.  The
  constructor `Err.fuelOut` is a model artifact for the fuel of the
  polling loop; `runFuel` is proven large enough that it never occurs.
-/

namespace Lisa

/-- Eventual outcome of a submitted task: it either returns a value or
raises an error (values and error payloads are both modelled as `Nat`). -/
inductive Outcome where
  | success (v : Nat)
  | failure (e : Nat)
  deriving DecidableEq, Repr, Inhabited

/-- Payload of a success outcome (the error payload for a failure; only
used on success outcomes in the theorems below). -/
def Outcome.val : Outcome → Nat
  | .success v => v
  | .failure e => e

/-- Python exceptions that can cross the `run_in_threads` boundary.
`fuelOut` is a model artifact of the fuel-indexed polling loop and is
proven unreachable for the fuel supplied by `run_in_threads`. -/
inductive Err where
  | cancelledError
  | taskError (e : Nat)
  | valueError
  | fuelOut
  deriving DecidableEq, Repr

/-- Environment description of one submitted task: eventual outcome,
tick at which the pool starts running it, tick at which it finishes. -/
structure TaskSpec where
  outcome : Outcome
  startAt : Nat
  completeAt : Nat
  deriving DecidableEq, Repr, Inhabited

/-- A `concurrent.futures.Future`: the task description plus the one
mutable bit the runner can flip, the cancelled flag. -/
structure Future where
  outcome : Outcome
  startAt : Nat
  completeAt : Nat
  cancelled : Bool
  deriving DecidableEq, Repr, Inhabited

/-- `pool.submit(method)` creates a fresh, not-cancelled future. -/
def TaskSpec.toFuture (m : TaskSpec) : Future :=
  ⟨m.outcome, m.startAt, m.completeAt, false⟩

/-- `future.done()` at tick `t`: true once the future finished running or
was cancelled. -/
def Future.isDone (f : Future) (t : Nat) : Bool :=
  f.cancelled || decide (f.completeAt ≤ t)

/-- `future.cancel()` at tick `t`: a cancelled future stays cancelled, a
finished or already-running future cannot be cancelled, a pending future
(not yet started) transitions to cancelled.  Returns the success flag and
the updated future. -/
def Future.cancel (f : Future) (t : Nat) : Bool × Future :=
  if f.cancelled then (true, f)
  else if f.completeAt ≤ t then (false, f)
  else if f.startAt ≤ t then (false, f)
  else (true, { f with cancelled := true })

/-- `future.result()` at tick `t`: raises `CancelledError` on a cancelled
future, otherwise blocks until the task completes (advancing the clock to
`max t f.completeAt`) and returns its value or re-raises its error.  The
second component is the clock after the call. -/
def Future.result (f : Future) (t : Nat) : Except Err Nat × Nat :=
  if f.cancelled then (.error .cancelledError, t)
  else
    match f.outcome with
    | .success v => (.ok v, max t f.completeAt)
    | .failure e => (.error (.taskError e), max t f.completeAt)

/-- Truthiness test of `future.exception()` on a done future: raises
`CancelledError` on a cancelled future, otherwise reports whether the
task raised. -/
def Future.exceptionTruthy (f : Future) : Except Err Bool :=
  if f.cancelled then .error .cancelledError
  else
    match f.outcome with
    | .success _ => .ok false
    | .failure _ => .ok true

/-- Global state threaded through the runner: the clock, the store of
futures created by `pool.submit` (a future is referred to by its
submission index), and the number of `completed_callback(False)` calls
made so far by `_cancel_threads`. -/
structure St where
  time : Nat
  store : List Future
  cbFalse : Nat
  deriving DecidableEq, Repr

/-- Future with submission index `i`. -/
def St.fut (s : St) (i : Nat) : Future :=
  s.store.getD i default

/-- Write back a mutated future. -/
def St.setFut (s : St) (i : Nat) (f : Future) : St :=
  { s with store := s.store.set i f }

/-- Loop of `_cancel_threads` (`for future in futures: ...`), source
lines 181-194.  `acc` is the `success_futures` accumulator.  The first
branch models `if future.done() and future.exception(): future.result()`,
the second `elif not future.done()` with the cancel attempt, the optional
`completed_callback(False)` call and the blocking `future.result()`, the
third appends to `success_futures`. -/
def cancelThreadsGo (hasCb : Bool) : List Nat → List Nat → St → Except Err (List Nat) × St
  | [], acc, s => (.ok acc, s)
  | i :: rest, acc, s =>
    let f := s.fut i
    if f.isDone s.time then
      match f.exceptionTruthy with
      | .error e => (.error e, s)
      | .ok true =>
        match f.result s.time with
        | (.error e, t2) => (.error e, { s with time := t2 })
        | (.ok _, t2) => cancelThreadsGo hasCb rest acc { s with time := t2 }
      | .ok false => cancelThreadsGo hasCb rest (acc ++ [i]) s
    else
      let c := f.cancel s.time
      let s1 := s.setFut i c.2
      let s2 := if !c.1 && hasCb then { s1 with cbFalse := s1.cbFalse + 1 } else s1
      match Future.result c.2 s2.time with
      | (.error e, t2) => (.error e, { s2 with time := t2 })
      | (.ok _, t2) => cancelThreadsGo hasCb rest acc { s2 with time := t2 }

/-- `_cancel_threads(futures, completed_callback)`, source lines 176-196:
sweeps the given futures, re-raising stored errors, cancelling unfinished
work and collecting the already-successful futures, which it returns. -/
def cancel_threads (hasCb : Bool) (ids : List Nat) (s : St) : Except Err (List Nat) × St :=
  cancelThreadsGo hasCb ids [] s

/-- Exit status of the polling loop (source lines 219-232): `normal` when
`while any(not x.done() for x in futures)` became false, `interrupted`
when the `KeyboardInterrupt` was delivered at a sleep, `errored` when a
drained `future.result()` raised, `fuelOut` is the fuel artifact. -/
inductive LoopExit where
  | normal
  | interrupted
  | errored (e : Err)
  | fuelOut
  deriving DecidableEq, Repr

/-- Delivery test for the one-shot `KeyboardInterrupt` signal at the
polling loop's sleep. -/
def interruptNow (intr : Option Nat) (t : Nat) : Bool :=
  match intr with
  | some it => decide (it ≤ t)
  | none => false

/-- Polling loop of `run_in_threads`, source lines 219-232.  Each
iteration re-checks the `while` condition, scans for the first done
future (`for future in futures: if future.done(): ... break`), removes it
(`futures.remove(future)`) and appends `future.result()` to `results`
(an exception there exits the loop), and otherwise sleeps one tick
(`time.sleep(0.1)`), the point at which a pending `KeyboardInterrupt` is
delivered.  Returns the exit status, the remaining `futures` list and the
`results` accumulated so far. -/
def pollLoop (intr : Option Nat) : Nat → List Nat → List Nat → St → (LoopExit × List Nat × List Nat) × St
  | 0, ids, res, s => ((.fuelOut, ids, res), s)
  | fuel + 1, ids, res, s =>
    if ids.all (fun i => (s.fut i).isDone s.time) then
      ((.normal, ids, res), s)
    else
      match ids.find? (fun i => (s.fut i).isDone s.time) with
      | some i =>
        let ids2 := ids.erase i
        match (s.fut i).result s.time with
        | (.error e, t2) => ((.errored e, ids2, res), { s with time := t2 })
        | (.ok v, t2) => pollLoop intr fuel ids2 (res ++ [v]) { s with time := t2 }
      | none =>
        if interruptNow intr s.time then
          ((.interrupted, ids, res), s)
        else
          pollLoop intr fuel ids res { s with time := s.time + 1 }

/-- Final collection `for future in futures: results.append(future.result())`,
source lines 244-246. -/
def collectResults : List Nat → List Nat → St → Except Err (List Nat) × St
  | [], res, s => (.ok res, s)
  | i :: rest, res, s =>
    match (s.fut i).result s.time with
    | (.error e, t2) => (.error e, { s with time := t2 })
    | (.ok v, t2) => collectResults rest (res ++ [v]) { s with time := t2 }

/-- `pool.shutdown(wait=True)` (also run by the `with` block exit): waits
until every future that was not cancelled has finished running. -/
def St.shutdown (s : St) : St :=
  { s with time := s.store.foldl (fun t f => if f.cancelled then t else max t f.completeAt) s.time }

/-- State right after `futures = [pool.submit(method) for method in methods]`. -/
def initSt (specs : List TaskSpec) : St :=
  ⟨0, specs.map TaskSpec.toFuture, 0⟩

/-- Largest completion tick among the submitted tasks. -/
def maxComplete (specs : List TaskSpec) : Nat :=
  specs.foldl (fun t m => max t m.completeAt) 0

/-- Fuel supplied to the polling loop; each iteration either removes a
future from the list or advances the clock, so this bound suffices. -/
def runFuel (specs : List TaskSpec) : Nat :=
  specs.length + maxComplete specs + 2

/-- `run_in_threads(methods, max_workers, completed_callback, log)`,
source lines 199-247.  `max_workers <= 0` is replaced by `len(methods)`
(line 211-212); `ThreadPoolExecutor` raises `ValueError` when the
resulting worker count is not positive; then the polling loop runs inside
`try/except KeyboardInterrupt/finally`.  The `except` branch sweeps with
`_cancel_threads` and calls `pool.shutdown(True)`; the `finally` branch
sweeps again (on the current value of the `futures` variable — when the
`except` sweep raised, its assignment never happened, so the old list is
swept once more); an exception raised by the `finally` sweep replaces the
in-flight exception, as in Python.  On a non-exceptional exit the results
of the futures returned by the last sweep are appended.  Every path ends
with the `with` block exit, i.e. `pool.shutdown(wait=True)`. -/
def run_in_threads (specs : List TaskSpec) (max_workers : Int) (hasCb : Bool)
    (intr : Option Nat) : Except Err (List Nat) × St :=
  let mw : Int := if max_workers ≤ 0 then (specs.length : Int) else max_workers
  let s0 := initSt specs
  if mw ≤ 0 then (.error .valueError, s0)
  else
    match pollLoop intr (runFuel specs) (List.range specs.length) [] s0 with
    | ((.normal, ids1, res), s1) =>
      match cancel_threads hasCb ids1 s1 with
      | (.ok ids2, s2) =>
        match collectResults ids2 res s2 with
        | (.ok res2, s3) => (.ok res2, s3.shutdown)
        | (.error e, s3) => (.error e, s3.shutdown)
      | (.error e, s2) => (.error e, s2.shutdown)
    | ((.interrupted, ids1, res), s1) =>
      match cancel_threads hasCb ids1 s1 with
      | (.ok ids2, s2) =>
        match cancel_threads hasCb ids2 s2.shutdown with
        | (.ok ids3, s3) =>
          match collectResults ids3 res s3 with
          | (.ok res2, s4) => (.ok res2, s4.shutdown)
          | (.error e, s4) => (.error e, s4.shutdown)
        | (.error e, s3) => (.error e, s3.shutdown)
      | (.error e, s2) =>
        match cancel_threads hasCb ids1 s2 with
        | (.ok _, s3) => (.error e, s3.shutdown)
        | (.error e2, s3) => (.error e2, s3.shutdown)
    | ((.errored e, ids1, _), s1) =>
      match cancel_threads hasCb ids1 s1 with
      | (.ok _, s2) => (.error e, s2.shutdown)
      | (.error e2, s2) => (.error e2, s2.shutdown)
    | ((.fuelOut, _, _), s1) => (.error .fuelOut, s1)

/-- Number of invocations of the registered done-callbacks: per the
`concurrent.futures` documentation, a callback registered with
`add_done_callback` fires exactly once when its future reaches a terminal
state (finished or cancelled), so over a finished run each terminal
future accounts for one invocation. -/
def doneCallbackCount (s : St) : Nat :=
  (s.store.filter (fun f => f.isDone s.time)).length

/-- Total number of `completed_callback` invocations over a run with a
callback supplied: the done-callbacks plus the explicit
`completed_callback(False)` calls of `_cancel_threads`. -/
def callbackInvocations (s : St) : Nat :=
  doneCallbackCount s + s.cbFalse

deriving instance DecidableEq for Except

/-- Whether an outcome is a success. -/
def Outcome.isSuccess : Outcome → Bool
  | .success _ => true
  | .failure _ => false

/-- A future that is terminal with a successful outcome at tick `t`: it
finished (was not cancelled) and its task succeeded.  This is the state
of the futures `_cancel_threads` puts into `success_futures`. -/
def SettledSuccess (f : Future) (t : Nat) : Prop :=
  f.cancelled = false ∧ f.completeAt ≤ t ∧ f.outcome.isSuccess = true

instance (f : Future) (t : Nat) : Decidable (SettledSuccess f t) :=
  inferInstanceAs (Decidable (_ ∧ _ ∧ _))

/-- A future whose task the pool started right away (so `cancel()` can
never succeed on it) and whose task eventually succeeds. -/
def StartedSuccess (f : Future) : Prop :=
  f.cancelled = false ∧ f.startAt = 0 ∧ f.outcome.isSuccess = true

instance (f : Future) : Decidable (StartedSuccess f) :=
  inferInstanceAs (Decidable (_ ∧ _ ∧ _))

theorem Outcome.exists_of_isSuccess {o : Outcome} (h : o.isSuccess = true) :
    ∃ v, o = .success v := by
  cases o with
  | success v => exact ⟨v, rfl⟩
  | failure e => simp [Outcome.isSuccess] at h

theorem SettledSuccess.mono {f : Future} {t t2 : Nat} (h : SettledSuccess f t) (ht : t ≤ t2) :
    SettledSuccess f t2 :=
  ⟨h.1, le_trans h.2.1 ht, h.2.2⟩

theorem SettledSuccess.isDone {f : Future} {t : Nat} (h : SettledSuccess f t) :
    f.isDone t = true := by
  simp [Future.isDone, h.2.1]

theorem SettledSuccess.exceptionTruthy {f : Future} {t : Nat} (h : SettledSuccess f t) :
    f.exceptionTruthy = .ok false := by
  obtain ⟨v, hv⟩ := Outcome.exists_of_isSuccess h.2.2
  simp [Future.exceptionTruthy, h.1, hv]

theorem SettledSuccess.result {f : Future} {t : Nat} (h : SettledSuccess f t) :
    ∃ v, f.outcome = .success v ∧ f.result t = (.ok v, t) := by
  obtain ⟨v, hv⟩ := Outcome.exists_of_isSuccess h.2.2
  exact ⟨v, hv, by simp [Future.result, h.1, hv, Nat.max_eq_left h.2.1]⟩

theorem list_set_getD_self (l : List Future) (i : Nat) :
    l.set i (l.getD i default) = l := by
  induction l generalizing i with
  | nil => rfl
  | cons x xs ih =>
    cases i with
    | zero => rfl
    | succ j =>
      show x :: xs.set j (xs.getD j default) = x :: xs
      rw [ih j]

theorem getD_mem_of_lt (l : List Future) {i : Nat} (hi : i < l.length) :
    l.getD i default ∈ l := by
  induction l generalizing i with
  | nil => simp at hi
  | cons x xs ih =>
    cases i with
    | zero => exact List.mem_cons_self x xs
    | succ j => exact List.mem_cons_of_mem x (ih (by simpa using hi))

theorem St.setFut_self (s : St) (i : Nat) : s.setFut i (s.fut i) = s := by
  show { s with store := s.store.set i (s.store.getD i default) } = s
  rw [list_set_getD_self]

theorem St.fut_of_store_eq {s s2 : St} (h : s2.store = s.store) (i : Nat) :
    s2.fut i = s.fut i := by
  show s2.store.getD i default = s.store.getD i default
  rw [h]

theorem cancelThreadsGo_cons_settled (hasCb : Bool) (i : Nat) (rest acc : List Nat) (s : St)
    (h : SettledSuccess (s.fut i) s.time) :
    cancelThreadsGo hasCb (i :: rest) acc s = cancelThreadsGo hasCb rest (acc ++ [i]) s := by
  simp only [cancelThreadsGo]
  rw [if_pos h.isDone, h.exceptionTruthy]

theorem cancelThreadsGo_cons_doneCancelled (hasCb : Bool) (i : Nat) (rest acc : List Nat) (s : St)
    (hc : (s.fut i).cancelled = true) :
    cancelThreadsGo hasCb (i :: rest) acc s = (.error .cancelledError, s) := by
  have hd : (s.fut i).isDone s.time = true := by simp [Future.isDone, hc]
  have he : (s.fut i).exceptionTruthy = .error .cancelledError := by
    simp [Future.exceptionTruthy, hc]
  simp only [cancelThreadsGo]
  rw [if_pos hd, he]

theorem cancelThreadsGo_cons_doneFail (hasCb : Bool) (i : Nat) (rest acc : List Nat) (s : St)
    {e : Nat} (hnc : (s.fut i).cancelled = false) (hd : (s.fut i).completeAt ≤ s.time)
    (hv : (s.fut i).outcome = .failure e) :
    cancelThreadsGo hasCb (i :: rest) acc s = (.error (.taskError e), s) := by
  have hd2 : (s.fut i).isDone s.time = true := by simp [Future.isDone, hd]
  have he : (s.fut i).exceptionTruthy = .ok true := by
    simp [Future.exceptionTruthy, hnc, hv]
  have hr : (s.fut i).result s.time = (.error (.taskError e), s.time) := by
    simp [Future.result, hnc, hv, Nat.max_eq_left hd]
  simp only [cancelThreadsGo]
  rw [if_pos hd2, he, hr]

theorem cancelThreadsGo_cons_running_fail (hasCb : Bool) (i : Nat) (rest acc : List Nat) (s : St)
    {e : Nat} (hnc : (s.fut i).cancelled = false) (hnd : ¬ (s.fut i).completeAt ≤ s.time)
    (hst : (s.fut i).startAt ≤ s.time) (hv : (s.fut i).outcome = .failure e) :
    cancelThreadsGo hasCb (i :: rest) acc s =
      (.error (.taskError e),
        ⟨max s.time (s.fut i).completeAt, s.store,
          if hasCb then s.cbFalse + 1 else s.cbFalse⟩) := by
  have hd : (s.fut i).isDone s.time = false := by simp [Future.isDone, hnc, hnd]
  have hcan : (s.fut i).cancel s.time = (false, s.fut i) := by
    simp [Future.cancel, hnc, hnd, hst]
  simp only [cancelThreadsGo]
  rw [if_neg (by simp [hd]), hcan]
  have hself : s.setFut i (s.fut i) = s := s.setFut_self i
  cases hasCb <;>
    simp only [Bool.not_false, Bool.and_self, Bool.true_and, Bool.and_false, if_pos, if_neg,
      Bool.false_eq_true, ite_false, ite_true, hself] <;>
    simp [Future.result, hnc, hv]

theorem cancelThreadsGo_cons_running_succ (hasCb : Bool) (i : Nat) (rest acc : List Nat) (s : St)
    {v : Nat} (hnc : (s.fut i).cancelled = false) (hnd : ¬ (s.fut i).completeAt ≤ s.time)
    (hst : (s.fut i).startAt ≤ s.time) (hv : (s.fut i).outcome = .success v) :
    cancelThreadsGo hasCb (i :: rest) acc s =
      cancelThreadsGo hasCb rest acc
        ⟨max s.time (s.fut i).completeAt, s.store,
          if hasCb then s.cbFalse + 1 else s.cbFalse⟩ := by
  have hd : (s.fut i).isDone s.time = false := by simp [Future.isDone, hnc, hnd]
  have hcan : (s.fut i).cancel s.time = (false, s.fut i) := by
    simp [Future.cancel, hnc, hnd, hst]
  simp only [cancelThreadsGo]
  rw [if_neg (by simp [hd]), hcan]
  have hself : s.setFut i (s.fut i) = s := s.setFut_self i
  cases hasCb <;>
    simp only [Bool.not_false, Bool.and_self, Bool.true_and, Bool.and_false, if_pos, if_neg,
      Bool.false_eq_true, ite_false, ite_true, hself] <;>
    simp [Future.result, hnc, hv]

theorem cancelThreadsGo_cons_pending (hasCb : Bool) (i : Nat) (rest acc : List Nat) (s : St)
    (hnc : (s.fut i).cancelled = false) (hnd : ¬ (s.fut i).completeAt ≤ s.time)
    (hpend : ¬ (s.fut i).startAt ≤ s.time) :
    cancelThreadsGo hasCb (i :: rest) acc s =
      (.error .cancelledError,
        ⟨s.time, s.store.set i { s.fut i with cancelled := true }, s.cbFalse⟩) := by
  have hd : (s.fut i).isDone s.time = false := by simp [Future.isDone, hnc, hnd]
  have hcan : (s.fut i).cancel s.time = (true, { s.fut i with cancelled := true }) := by
    simp [Future.cancel, hnc, hnd, hpend]
  simp only [cancelThreadsGo]
  rw [if_neg (by simp [hd]), hcan]
  simp [Future.result, St.setFut]

theorem cancelThreadsGo_settled_append (hasCb : Bool) (pre : List Nat) :
    ∀ l acc : List Nat, ∀ s : St, (∀ i ∈ pre, SettledSuccess (s.fut i) s.time) →
    cancelThreadsGo hasCb (pre ++ l) acc s = cancelThreadsGo hasCb l (acc ++ pre) s := by
  induction pre with
  | nil => intro l acc s _; simp
  | cons i pre ih =>
    intro l acc s h
    have hi : SettledSuccess (s.fut i) s.time := h i (List.mem_cons_self i pre)
    rw [List.cons_append, cancelThreadsGo_cons_settled hasCb i (pre ++ l) acc s hi,
      ih l (acc ++ [i]) s (fun j hj => h j (List.mem_cons_of_mem i hj))]
    simp

theorem cancel_threads_settled (hasCb : Bool) (ids : List Nat) (s : St)
    (h : ∀ i ∈ ids, SettledSuccess (s.fut i) s.time) :
    cancel_threads hasCb ids s = (.ok ids, s) := by
  have h2 := cancelThreadsGo_settled_append hasCb ids [] [] s h
  simpa [cancel_threads, cancelThreadsGo] using h2

theorem cancelThreadsGo_started (hasCb : Bool) (ids : List Nat) :
    ∀ acc : List Nat, ∀ s : St, (∀ i ∈ ids, StartedSuccess (s.fut i)) →
    (∀ i ∈ acc, SettledSuccess (s.fut i) s.time) →
    ∃ l : List Nat, ∃ s2 : St, cancelThreadsGo hasCb ids acc s = (.ok l, s2) ∧
      s2.store = s.store ∧ s.time ≤ s2.time ∧
      ∀ i ∈ l, SettledSuccess (s2.fut i) s2.time := by
  induction ids with
  | nil =>
    intro acc s _ hacc
    exact ⟨acc, s, rfl, rfl, le_refl _, hacc⟩
  | cons i rest ih =>
    intro acc s hids hacc
    have hi : StartedSuccess (s.fut i) := hids i (List.mem_cons_self i rest)
    obtain ⟨v, hv⟩ := Outcome.exists_of_isSuccess hi.2.2
    by_cases hd : (s.fut i).completeAt ≤ s.time
    · have hset : SettledSuccess (s.fut i) s.time := ⟨hi.1, hd, hi.2.2⟩
      rw [cancelThreadsGo_cons_settled hasCb i rest acc s hset]
      refine ih (acc ++ [i]) s (fun j hj => hids j (List.mem_cons_of_mem i hj)) ?_
      intro j hj
      rcases List.mem_append.mp hj with hj | hj
      · exact hacc j hj
      · rw [List.mem_singleton.mp hj]; exact hset
    · have hst : (s.fut i).startAt ≤ s.time := by rw [hi.2.1]; exact Nat.zero_le _
      rw [cancelThreadsGo_cons_running_succ hasCb i rest acc s hi.1 hd hst hv]
      set s3 : St :=
        ⟨max s.time (s.fut i).completeAt, s.store,
          if hasCb then s.cbFalse + 1 else s.cbFalse⟩ with hs3
      have hfut : ∀ j, s3.fut j = s.fut j := St.fut_of_store_eq rfl
      have htime : s.time ≤ s3.time := le_max_left _ _
      obtain ⟨l, s2, heq, hstore, ht2, hl⟩ :=
        ih acc s3
          (fun j hj => by rw [hfut j]; exact hids j (List.mem_cons_of_mem i hj))
          (fun j hj => by rw [hfut j]; exact (hacc j hj).mono htime)
      exact ⟨l, s2, heq, hstore, le_trans htime ht2, hl⟩

theorem collectResults_settled (ids : List Nat) :
    ∀ res : List Nat, ∀ s : St, (∀ i ∈ ids, SettledSuccess (s.fut i) s.time) →
    collectResults ids res s = (.ok (res ++ ids.map fun i => (s.fut i).outcome.val), s) := by
  induction ids with
  | nil => intro res s _; simp [collectResults]
  | cons i rest ih =>
    intro res s h
    obtain ⟨v, hv, hr⟩ := (h i (List.mem_cons_self i rest)).result
    rw [collectResults, hr]
    show collectResults rest (res ++ [v]) s = _
    rw [ih (res ++ [v]) s (fun j hj => h j (List.mem_cons_of_mem i hj))]
    simp [hv, Outcome.val]

theorem shutdown_store (s : St) : s.shutdown.store = s.store := rfl

theorem shutdown_cbFalse (s : St) : s.shutdown.cbFalse = s.cbFalse := rfl

theorem foldl_shutdown_le_init (l : List Future) :
    ∀ t : Nat, t ≤ l.foldl (fun a f => if f.cancelled then a else max a f.completeAt) t := by
  induction l with
  | nil => intro t; exact le_refl t
  | cons f l ih =>
    intro t
    refine le_trans ?_ (ih _)
    by_cases h : f.cancelled = true <;> simp [h]

theorem time_le_shutdown (s : St) : s.time ≤ s.shutdown.time :=
  foldl_shutdown_le_init s.store s.time

theorem foldl_shutdown_le_mem (l : List Future) {f : Future} (hf : f ∈ l)
    (hc : f.cancelled = false) :
    ∀ t : Nat, f.completeAt ≤ l.foldl (fun a g => if g.cancelled then a else max a g.completeAt) t := by
  induction l with
  | nil => exact absurd hf (List.not_mem_nil f)
  | cons g l ih =>
    intro t
    rcases List.mem_cons.mp hf with hgf | hf2
    · subst hgf
      refine le_trans ?_ (foldl_shutdown_le_init l _)
      simp [hc]
    · exact ih hf2 _

theorem completeAt_le_shutdown (s : St) {f : Future} (hf : f ∈ s.store)
    (hc : f.cancelled = false) : f.completeAt ≤ s.shutdown.time :=
  foldl_shutdown_le_mem s.store hf hc s.time

theorem completeAt_le_maxComplete {specs : List TaskSpec} {m : TaskSpec} (hm : m ∈ specs) :
    m.completeAt ≤ maxComplete specs := by
  have gen : ∀ l : List TaskSpec, ∀ t : Nat, ∀ m2 ∈ l,
      m2.completeAt ≤ l.foldl (fun a x => max a x.completeAt) t := by
    intro l
    induction l with
    | nil => intro t m2 hm2; exact absurd hm2 (List.not_mem_nil m2)
    | cons x l ih =>
      intro t m2 hm2
      rcases List.mem_cons.mp hm2 with h | h
      · subst h
        refine le_trans (le_max_right t m2.completeAt) ?_
        have gen2 : ∀ l2 : List TaskSpec, ∀ t2 : Nat,
            t2 ≤ l2.foldl (fun a x => max a x.completeAt) t2 := by
          intro l2
          induction l2 with
          | nil => intro t2; exact le_refl t2
          | cons y l2 ih2 => intro t2; exact le_trans (le_max_left t2 y.completeAt) (ih2 _)
        exact gen2 l _
      · exact ih (max t x.completeAt) m2 h
  exact gen specs 0 m hm

theorem map_range_getD (g : Future → Nat) (l : List Future) :
    (List.range l.length).map (fun i => g (l.getD i default)) = l.map g := by
  induction l with
  | nil => rfl
  | cons x xs ih =>
    rw [List.length_cons, List.range_succ_eq_map]
    simp only [List.map_cons, List.map_map]
    show g x :: (List.range xs.length).map (fun i => g (xs.getD i default)) = g x :: xs.map g
    rw [ih]

theorem pollLoop_success (intr : Option Nat) (C : Nat) :
    ∀ fuel : Nat, ∀ ids res : List Nat, ∀ s : St,
    (∀ i ∈ ids, (s.fut i).cancelled = false ∧ (s.fut i).outcome.isSuccess = true ∧
      (s.fut i).completeAt ≤ C) →
    ids.length + (C + 1 - s.time) + 1 ≤ fuel →
    ∃ ex : LoopExit, ∃ ids2 res2 : List Nat, ∃ s2 : St,
      pollLoop intr fuel ids res s = ((ex, ids2, res2), s2) ∧
      (ex = .normal ∨ ex = .interrupted) ∧
      s2.store = s.store ∧ s2.cbFalse = s.cbFalse ∧ s.time ≤ s2.time ∧
      ids2 ⊆ ids ∧
      (res2 ++ ids2.map fun i => (s.fut i).outcome.val).Perm
        (res ++ ids.map fun i => (s.fut i).outcome.val) ∧
      (ex = .normal → ∀ i ∈ ids2, (s2.fut i).isDone s2.time = true) ∧
      (intr = none → ex = .normal) := by
  intro fuel
  induction fuel with
  | zero => intro ids res s _ hfuel; omega
  | succ fuel ih =>
    intro ids res s hids hfuel
    by_cases hall : ids.all (fun i => (s.fut i).isDone s.time) = true
    · refine ⟨.normal, ids, res, s, ?_, Or.inl rfl, rfl, rfl, le_refl _,
        fun a ha => ha, List.Perm.refl _, ?_, fun _ => rfl⟩
      · simp only [pollLoop]
        rw [if_pos hall]
      · intro _ i hi
        exact List.all_eq_true.mp hall i hi
    · cases hfind : ids.find? (fun i => (s.fut i).isDone s.time) with
      | some i =>
        have hmem : i ∈ ids := List.mem_of_find?_eq_some hfind
        have hdone : (s.fut i).isDone s.time = true := by
          have h2 := List.find?_some hfind
          simpa using h2
        obtain ⟨hcan, hsuc, hC⟩ := hids i hmem
        obtain ⟨v, hv⟩ := Outcome.exists_of_isSuccess hsuc
        have hcomp : (s.fut i).completeAt ≤ s.time := by
          simpa [Future.isDone, hcan] using hdone
        have hres : (s.fut i).result s.time = (.ok v, s.time) := by
          simp [Future.result, hcan, hv, Nat.max_eq_left hcomp]
        have hstep : pollLoop intr (fuel + 1) ids res s
            = pollLoop intr fuel (ids.erase i) (res ++ [v]) s := by
          simp only [pollLoop]
          rw [if_neg hall, hfind]
          show (match (s.fut i).result s.time with
            | (.error e, t2) =>
              ((LoopExit.errored e, ids.erase i, res), { time := t2, store := s.store, cbFalse := s.cbFalse })
            | (.ok v, t2) =>
              pollLoop intr fuel (ids.erase i) (res ++ [v]) { time := t2, store := s.store, cbFalse := s.cbFalse }) =
            pollLoop intr fuel (ids.erase i) (res ++ [v]) s
          rw [hres]
        have hlen : (ids.erase i).length = ids.length - 1 := List.length_erase_of_mem hmem
        have hpos : 1 ≤ ids.length := List.length_pos.mpr (List.ne_nil_of_mem hmem)
        have hfuel2 : (ids.erase i).length + (C + 1 - s.time) + 1 ≤ fuel := by omega
        obtain ⟨ex, ids2, res2, s2, heq, hex, hst, hcb, ht, hsub, hperm, hdn, hnone⟩ :=
          ih (ids.erase i) (res ++ [v]) s
            (fun j hj => hids j (List.mem_of_mem_erase hj)) hfuel2
        refine ⟨ex, ids2, res2, s2, ?_, hex, hst, hcb, ht, ?_, ?_, hdn, hnone⟩
        · rw [hstep, heq]
        · exact fun a ha => List.erase_subset i ids (hsub ha)
        · have h1 : (ids.map fun j => (s.fut j).outcome.val).Perm
              ((s.fut i).outcome.val :: ((ids.erase i).map fun j => (s.fut j).outcome.val)) :=
            (List.perm_cons_erase hmem).map _
          have hvi : (s.fut i).outcome.val = v := by rw [hv]; rfl
          have h2 : (res ++ [v]) ++ ((ids.erase i).map fun j => (s.fut j).outcome.val)
              = res ++ (v :: ((ids.erase i).map fun j => (s.fut j).outcome.val)) := by simp
          rw [h2] at hperm
          refine hperm.trans (List.Perm.append_left res ?_)
          rw [← hvi]
          exact h1.symm
      | none =>
        by_cases hirq : interruptNow intr s.time = true
        · refine ⟨.interrupted, ids, res, s, ?_, Or.inr rfl, rfl, rfl, le_refl _,
            fun a ha => ha, List.Perm.refl _, ?_, ?_⟩
          · simp only [pollLoop]
            rw [if_neg hall, hfind, if_pos hirq]
          · intro h
            exact absurd h (by decide)
          · intro hn
            rw [hn] at hirq
            exact absurd hirq (by simp [interruptNow])
        · have hexnd : ∃ j ∈ ids, ¬ (s.fut j).isDone s.time = true := by
            by_contra hcon
            push_neg at hcon
            exact hall (List.all_eq_true.mpr fun j hj => hcon j hj)
          obtain ⟨j, hj, hjnd⟩ := hexnd
          have hjc : s.time < (s.fut j).completeAt := by
            have hcj := (hids j hj).1
            simp [Future.isDone, hcj] at hjnd
            omega
          have hjC := (hids j hj).2.2
          have hfuel2 : ids.length + (C + 1 - (s.time + 1)) + 1 ≤ fuel := by omega
          obtain ⟨ex, ids2, res2, s2, heq, hex, hst, hcb, ht, hsub, hperm, hdn, hnone⟩ :=
            ih ids res { s with time := s.time + 1 }
              (fun k hk => hids k hk) hfuel2
          refine ⟨ex, ids2, res2, s2, ?_, hex, hst, hcb, ?_, hsub, hperm, hdn, hnone⟩
          · simp only [pollLoop]
            rw [if_neg hall, hfind, if_neg hirq]
            exact heq
          · exact le_trans (Nat.le_succ _) ht

theorem initSt_fut_props (specs : List TaskSpec) {i : Nat} (hi : i < specs.length) :
    ∃ m ∈ specs, (initSt specs).fut i = m.toFuture := by
  have hlen : i < (specs.map TaskSpec.toFuture).length := by simpa using hi
  have hmem : (specs.map TaskSpec.toFuture).getD i default ∈ specs.map TaskSpec.toFuture :=
    getD_mem_of_lt _ hlen
  obtain ⟨m, hm, hm2⟩ := List.mem_map.mp hmem
  exact ⟨m, hm, hm2.symm⟩

theorem run_mw_pos (specs : List TaskSpec) (mw : Int) (h : specs ≠ []) :
    ¬ ((if mw ≤ 0 then (specs.length : Int) else mw) ≤ 0) := by
  have hlen : 0 < specs.length := List.length_pos.mpr h
  by_cases hmw : mw ≤ 0
  · rw [if_pos hmw]
    intro hc
    omega
  · rw [if_neg hmw]
    exact hmw

theorem run_allsuccess_none (specs : List TaskSpec) (mw : Int) (hasCb : Bool)
    (hne : specs ≠ []) (hs : ∀ m ∈ specs, m.outcome.isSuccess = true) :
    ∃ rs : List Nat, ∃ s2 : St,
      run_in_threads specs mw hasCb none = (.ok rs, s2.shutdown) ∧
      rs.Perm (specs.map fun m => m.outcome.val) ∧
      s2.store = (initSt specs).store ∧ s2.cbFalse = 0 := by
  have hids : ∀ i ∈ List.range specs.length,
      ((initSt specs).fut i).cancelled = false ∧
      ((initSt specs).fut i).outcome.isSuccess = true ∧
      ((initSt specs).fut i).completeAt ≤ maxComplete specs := by
    intro i hi
    obtain ⟨m, hm, hf⟩ := initSt_fut_props specs (List.mem_range.mp hi)
    rw [hf]
    exact ⟨rfl, hs m hm, completeAt_le_maxComplete hm⟩
  have hfuel : (List.range specs.length).length
      + (maxComplete specs + 1 - (initSt specs).time) + 1 ≤ runFuel specs := by
    simp only [List.length_range, runFuel, initSt]
    omega
  obtain ⟨ex, ids2, res2, s1, heq, hex, hst, hcb, ht, hsub, hperm, hdn, hnone⟩ :=
    pollLoop_success none (maxComplete specs) (runFuel specs)
      (List.range specs.length) [] (initSt specs) hids hfuel
  have hexn : ex = .normal := hnone rfl
  subst hexn
  have hsettle : ∀ i ∈ ids2, SettledSuccess (s1.fut i) s1.time := by
    intro i hi
    have hfeq : s1.fut i = (initSt specs).fut i := St.fut_of_store_eq hst i
    have hprops := hids i (hsub hi)
    have hd := hdn rfl i hi
    have hc2 : (s1.fut i).cancelled = false := by rw [hfeq]; exact hprops.1
    refine ⟨hc2, ?_, ?_⟩
    · simpa [Future.isDone, hc2] using hd
    · rw [hfeq]; exact hprops.2.1
  have hsweep := cancel_threads_settled hasCb ids2 s1 hsettle
  have hcoll := collectResults_settled ids2 res2 s1 hsettle
  refine ⟨res2 ++ ids2.map (fun i => (s1.fut i).outcome.val), s1, ?_, ?_, hst, ?_⟩
  · simp only [run_in_threads, heq, hsweep, hcoll, if_neg (run_mw_pos specs mw hne)]
  · have hmapeq : (ids2.map fun i => (s1.fut i).outcome.val)
        = ids2.map fun i => ((initSt specs).fut i).outcome.val := by
      refine List.map_congr_left ?_
      intro i hi
      rw [St.fut_of_store_eq hst i]
    rw [hmapeq]
    have h3 := map_range_getD (fun f => f.outcome.val) (specs.map TaskSpec.toFuture)
    have h2 : ([] : List Nat)
        ++ ((List.range specs.length).map fun i => ((initSt specs).fut i).outcome.val)
        = specs.map fun m => m.outcome.val := by
      rw [List.nil_append]
      simpa [initSt, St.fut, List.map_map] using h3
    rw [h2] at hperm
    exact hperm
  · rw [hcb]
    rfl

theorem run_started_success (specs : List TaskSpec) (mw : Int) (hasCb : Bool) (intr : Option Nat)
    (hne : specs ≠ []) (hs : ∀ m ∈ specs, m.startAt = 0 ∧ m.outcome.isSuccess = true) :
    ∃ rs : List Nat, ∃ s2 : St, run_in_threads specs mw hasCb intr = (.ok rs, s2) := by
  have hids : ∀ i ∈ List.range specs.length,
      ((initSt specs).fut i).cancelled = false ∧
      ((initSt specs).fut i).outcome.isSuccess = true ∧
      ((initSt specs).fut i).completeAt ≤ maxComplete specs := by
    intro i hi
    obtain ⟨m, hm, hf⟩ := initSt_fut_props specs (List.mem_range.mp hi)
    rw [hf]
    exact ⟨rfl, (hs m hm).2, completeAt_le_maxComplete hm⟩
  have hfuel : (List.range specs.length).length
      + (maxComplete specs + 1 - (initSt specs).time) + 1 ≤ runFuel specs := by
    simp only [List.length_range, runFuel, initSt]
    omega
  obtain ⟨ex, ids2, res2, s1, heq, hex, hst, hcb, ht, hsub, hperm, hdn, hnone⟩ :=
    pollLoop_success intr (maxComplete specs) (runFuel specs)
      (List.range specs.length) [] (initSt specs) hids hfuel
  rcases hex with hexn | hexi
  · subst hexn
    have hsettle : ∀ i ∈ ids2, SettledSuccess (s1.fut i) s1.time := by
      intro i hi
      have hfeq : s1.fut i = (initSt specs).fut i := St.fut_of_store_eq hst i
      have hprops := hids i (hsub hi)
      have hd := hdn rfl i hi
      have hc2 : (s1.fut i).cancelled = false := by rw [hfeq]; exact hprops.1
      refine ⟨hc2, ?_, ?_⟩
      · simpa [Future.isDone, hc2] using hd
      · rw [hfeq]; exact hprops.2.1
    have hsweep := cancel_threads_settled hasCb ids2 s1 hsettle
    have hcoll := collectResults_settled ids2 res2 s1 hsettle
    refine ⟨res2 ++ ids2.map (fun i => (s1.fut i).outcome.val), s1.shutdown, ?_⟩
    simp only [run_in_threads, heq, hsweep, hcoll, if_neg (run_mw_pos specs mw hne)]
  · subst hexi
    have hstart : ∀ i ∈ ids2, StartedSuccess (s1.fut i) := by
      intro i hi
      have hfeq : s1.fut i = (initSt specs).fut i := St.fut_of_store_eq hst i
      obtain ⟨m, hm, hf⟩ := initSt_fut_props specs (List.mem_range.mp (hsub hi))
      rw [hfeq, hf]
      exact ⟨rfl, (hs m hm).1, (hs m hm).2⟩
    obtain ⟨l, s3, hswp, hst3, ht3, hl⟩ :=
      cancelThreadsGo_started hasCb ids2 [] s1 hstart
        (fun j hj => absurd hj (List.not_mem_nil j))
    have hswp2 : cancel_threads hasCb ids2 s1 = (.ok l, s3) := hswp
    have hl2 : ∀ i ∈ l, SettledSuccess (s3.shutdown.fut i) s3.shutdown.time := by
      intro i hi
      have h4 := (hl i hi).mono (time_le_shutdown s3)
      rwa [St.fut_of_store_eq (shutdown_store s3) i]
    have hswp3 := cancel_threads_settled hasCb l s3.shutdown hl2
    have hcoll := collectResults_settled l res2 s3.shutdown hl2
    refine ⟨res2 ++ l.map fun i => (s3.shutdown.fut i).outcome.val, s3.shutdown.shutdown, ?_⟩
    simp only [run_in_threads, heq, hswp2, hswp3, hcoll, if_neg (run_mw_pos specs mw hne)]

/-- C1 is false as stated: two successful tasks where the later-submitted
one finishes first yield the result list `[20, 10]` — completion order —
while the submission-order list of the two task values is `[10, 20]`. -/
theorem c1_submission_order_cex :
    (run_in_threads [⟨.success 10, 0, 5⟩, ⟨.success 20, 0, 0⟩] 0 false none).fst
      = .ok [20, 10] ∧
    (Except.ok [20, 10] : Except Err (List Nat)) ≠ .ok [10, 20] := by
  constructor
  · decide
  · decide

/-- C1 (amended): for every nonempty batch of tasks that all complete
successfully, an uninterrupted `run_in_threads` returns a list containing
exactly one result per submitted task — a permutation of the submitted
tasks' values — but in completion-detection order, not necessarily in
submission order. -/
theorem c1_one_result_per_task (specs : List TaskSpec) (mw : Int) (hasCb : Bool)
    (hne : specs ≠ []) (hs : ∀ m ∈ specs, m.outcome.isSuccess = true) :
    ∃ rs : List Nat, ∃ s2 : St,
      run_in_threads specs mw hasCb none = (.ok rs, s2) ∧
      rs.Perm (specs.map fun m => m.outcome.val) := by
  obtain ⟨rs, s2, hrun, hperm, _, _⟩ := run_allsuccess_none specs mw hasCb hne hs
  exact ⟨rs, s2.shutdown, hrun, hperm⟩

/-- Witness for C1 (amended) at a concrete two-task batch. -/
theorem c1_one_result_per_task_wit :
    ∃ rs : List Nat, ∃ s2 : St,
      run_in_threads [⟨.success 10, 0, 5⟩, ⟨.success 20, 0, 0⟩] 0 false none
        = (.ok rs, s2) ∧
      rs.Perm [10, 20] :=
  c1_one_result_per_task [⟨.success 10, 0, 5⟩, ⟨.success 20, 0, 0⟩] 0 false
    (by decide) (by decide)

/-- C2 is false as stated: `max_workers = -1` with one task raises no
validation error at all — the run completes and returns the task's
result. -/
theorem c2_negative_workers_cex :
    (run_in_threads [⟨.success 3, 0, 0⟩] (-1) false none).fst = .ok [3] ∧
    (Except.ok [3] : Except Err (List Nat)) ≠ .error .valueError := by
  constructor
  · decide
  · decide

/-- C2 (amended): a negative `max_workers` is not rejected; source line
211 replaces every non-positive value by `len(methods)`, so a negative
worker count makes `run_in_threads` behave exactly like the default
`max_workers = 0`. -/
theorem c2_negative_workers_eq_default (specs : List TaskSpec) (hasCb : Bool)
    (intr : Option Nat) (mw : Int) (h : mw ≤ 0) :
    run_in_threads specs mw hasCb intr = run_in_threads specs 0 hasCb intr := by
  simp only [run_in_threads, if_pos h, if_pos (le_refl (0 : Int))]

/-- Witness for C2 (amended) at `max_workers = -1`. -/
theorem c2_negative_workers_eq_default_wit :
    run_in_threads [⟨.success 3, 0, 0⟩] (-1) false none
      = run_in_threads [⟨.success 3, 0, 0⟩] 0 false none :=
  c2_negative_workers_eq_default [⟨.success 3, 0, 0⟩] false none (-1) (by decide)

/-- C3 is false as stated: a `KeyboardInterrupt` observed at the first
sleep of the polling loop, with the single task already running and later
succeeding, makes `run_in_threads` return normally — and it even returns
the empty list, dropping the task's result — instead of raising. -/
theorem c3_interrupt_returns_cex :
    (run_in_threads [⟨.success 7, 0, 5⟩] 0 true (some 0)).fst = .ok [] ∧
    (run_in_threads [⟨.success 7, 0, 5⟩] 0 true (some 0)).fst ≠ .error .cancelledError := by
  constructor
  · decide
  · decide

/-- C3 (amended): an interrupted run raises only if the cancellation
sweep surfaces an exception; whenever every task has already started (so
no cancellation attempt can succeed) and all tasks complete successfully,
`run_in_threads` catches the `KeyboardInterrupt` and returns a result
list normally — a list that may omit results of tasks that were still
running when the interrupt arrived. -/
theorem c3_interrupted_run_can_return (specs : List TaskSpec) (mw : Int) (hasCb : Bool)
    (intr : Option Nat) (hne : specs ≠ [])
    (hs : ∀ m ∈ specs, m.startAt = 0 ∧ m.outcome.isSuccess = true) :
    ∃ rs : List Nat, ∃ s2 : St, run_in_threads specs mw hasCb intr = (.ok rs, s2) :=
  run_started_success specs mw hasCb intr hne hs

/-- Witness for C3 (amended) at a concrete interrupted run. -/
theorem c3_interrupted_run_can_return_wit :
    ∃ rs : List Nat, ∃ s2 : St,
      run_in_threads [⟨.success 7, 0, 5⟩] 0 true (some 0) = (.ok rs, s2) :=
  c3_interrupted_run_can_return [⟨.success 7, 0, 5⟩] 0 true (some 0)
    (by decide) (by decide)

/-- C5 is false as stated: over the interrupted run of one
already-started task, the callback fires twice for the single handle —
once as `completed_callback(False)` when the cancellation attempt fails
during the sweep, and once as the registered done-callback when the task
then finishes — although only one handle was submitted. -/
theorem c5_callback_once_cex :
    callbackInvocations (run_in_threads [⟨.success 7, 0, 5⟩] 0 true (some 0)).snd = 2 ∧
    ([(⟨.success 7, 0, 5⟩ : TaskSpec)]).length = 1 ∧ (2 : Nat) ≠ 1 := by
  refine ⟨by decide, rfl, by decide⟩

/-- C5 (amended): with a callback supplied, the callback fires exactly
once per submitted handle on every uninterrupted run whose tasks all
succeed: each handle's registered done-callback fires exactly once at its
terminal transition, and the sweep makes no `completed_callback(False)`
call; runs whose sweep hits a failed cancellation attempt get one extra
invocation per such attempt. -/
theorem c5_callback_once_clean (specs : List TaskSpec) (mw : Int)
    (hne : specs ≠ []) (hs : ∀ m ∈ specs, m.outcome.isSuccess = true) :
    callbackInvocations (run_in_threads specs mw true none).snd = specs.length := by
  obtain ⟨rs, s2, hrun, hperm, hst, hcb⟩ := run_allsuccess_none specs mw true hne hs
  rw [hrun]
  show callbackInvocations s2.shutdown = specs.length
  have hstore : s2.shutdown.store = specs.map TaskSpec.toFuture := by
    rw [shutdown_store, hst]
    rfl
  have hdone : ∀ f ∈ s2.shutdown.store, f.isDone s2.shutdown.time = true := by
    intro f hf
    have hf2 : f ∈ s2.store := by rwa [shutdown_store] at hf
    have hcanc : f.cancelled = false := by
      rw [hstore] at hf
      obtain ⟨m, hm, hmf⟩ := List.mem_map.mp hf
      rw [← hmf]
      rfl
    have h5 := completeAt_le_shutdown s2 hf2 hcanc
    simp [Future.isDone, h5]
  have hfilter : s2.shutdown.store.filter (fun f => f.isDone s2.shutdown.time)
      = s2.shutdown.store := List.filter_eq_self.mpr hdone
  show doneCallbackCount s2.shutdown + s2.shutdown.cbFalse = specs.length
  rw [shutdown_cbFalse, hcb]
  show (s2.shutdown.store.filter (fun f => f.isDone s2.shutdown.time)).length + 0
      = specs.length
  rw [hfilter, hstore]
  simp

/-- Witness for C5 (amended) at a concrete clean run. -/
theorem c5_callback_once_clean_wit :
    callbackInvocations
      (run_in_threads [⟨.success 10, 0, 5⟩, ⟨.success 20, 0, 0⟩] 0 true none).snd = 2 :=
  c5_callback_once_clean [⟨.success 10, 0, 5⟩, ⟨.success 20, 0, 0⟩] 0
    (by decide) (by decide)

/-- C6 is false as stated: `_cancel_threads` over one already-settled
successful handle returns that same handle set `[0]` — despite the source
comment "return empty list to prevent cancel again" — so calling it again
on the set it returned yields `[0]` once more, not the empty set. -/
theorem c6_sweep_empty_cex :
    cancel_threads true [0] ⟨0, [⟨.success 1, 0, 0, false⟩], 0⟩
      = (.ok [0], ⟨0, [⟨.success 1, 0, 0, false⟩], 0⟩) ∧
    (Except.ok [0] : Except Err (List Nat)) ≠ .ok [] := by
  constructor
  · decide
  · decide

/-- C6 (amended): the sweep over an already-settled successful handle set
is idempotent in the sense that it returns the same set with the state
untouched — so a second call on the set it returned yields the identical
(non-empty) set again, makes no callback invocation, performs no
cancellation, and collects no result twice. -/
theorem c6_sweep_idempotent (hasCb : Bool) (ids : List Nat) (s : St)
    (h : ∀ i ∈ ids, SettledSuccess (s.fut i) s.time) :
    cancel_threads hasCb ids s = (.ok ids, s) ∧
    ∀ l2 : List Nat, ∀ s2 : St, cancel_threads hasCb ids s = (.ok l2, s2) →
      cancel_threads hasCb l2 s2 = (.ok l2, s2) := by
  have h1 := cancel_threads_settled hasCb ids s h
  refine ⟨h1, ?_⟩
  intro l2 s2 h2
  rw [h1] at h2
  injection h2 with h3 h4
  injection h3 with h5
  subst h4
  subst h5
  exact h1

/-- Witness for C6 (amended) at a concrete settled handle set. -/
theorem c6_sweep_idempotent_wit :
    cancel_threads false [0] ⟨3, [⟨.success 2, 0, 1, false⟩], 0⟩
      = (.ok [0], ⟨3, [⟨.success 2, 0, 1, false⟩], 0⟩) :=
  (c6_sweep_idempotent false [0] ⟨3, [⟨.success 2, 0, 1, false⟩], 0⟩ (by decide)).1

/-- C9: `run_in_threads` on an empty task list with any non-positive
`max_workers` (the default `0` included) replaces the worker count by
`len(methods) = 0`, and the `ThreadPoolExecutor` constructor rejects that
with `ValueError` — no empty result list is ever returned. -/
theorem c9_empty_tasks_value_error (mw : Int) (hasCb : Bool) (intr : Option Nat)
    (h : mw ≤ 0) :
    run_in_threads [] mw hasCb intr = (.error .valueError, initSt []) := by
  simp only [run_in_threads, if_pos h, List.length_nil, Nat.cast_zero,
    if_pos (le_refl (0 : Int))]

/-- Witness for C9 at the default worker count. -/
theorem c9_empty_tasks_value_error_wit :
    run_in_threads [] 0 false none = (.error .valueError, initSt []) :=
  c9_empty_tasks_value_error 0 false none (by decide)

/-- C7: an exception raised inside the `finally` block replaces the
in-flight exception, so when an error propagates out of the polling loop
(first conjunct) or out of the interrupt handler's sweep (second
conjunct) and the finalization sweep then detects an error, the later
cleanup-phase error is the one `run_in_threads` raises to its caller —
the finalization path never swallows an error that appears during
cleanup. -/
theorem c7_later_error_wins (specs : List TaskSpec) (mw : Int) (hasCb : Bool)
    (intr : Option Nat) (hne : specs ≠ []) :
    (∀ e1 : Err, ∀ ids1 res : List Nat, ∀ s1 : St, ∀ e2 : Err, ∀ s2 : St,
      pollLoop intr (runFuel specs) (List.range specs.length) [] (initSt specs)
        = ((.errored e1, ids1, res), s1) →
      cancel_threads hasCb ids1 s1 = (.error e2, s2) →
      run_in_threads specs mw hasCb intr = (.error e2, s2.shutdown)) ∧
    (∀ ids1 res : List Nat, ∀ s1 : St, ∀ e1 : Err, ∀ s2 : St, ∀ e2 : Err, ∀ s3 : St,
      pollLoop intr (runFuel specs) (List.range specs.length) [] (initSt specs)
        = ((.interrupted, ids1, res), s1) →
      cancel_threads hasCb ids1 s1 = (.error e1, s2) →
      cancel_threads hasCb ids1 s2 = (.error e2, s3) →
      run_in_threads specs mw hasCb intr = (.error e2, s3.shutdown)) := by
  constructor
  · intro e1 ids1 res s1 e2 s2 hp hc
    simp only [run_in_threads, hp, hc, if_neg (run_mw_pos specs mw hne)]
  · intro ids1 res s1 e1 s2 e2 s3 hp hc1 hc2
    simp only [run_in_threads, hp, hc1, hc2, if_neg (run_mw_pos specs mw hne)]

/-- Witness for C7 at two concrete runs: first, task 0 fails with error 1
(observed by the polling loop) and the finalization sweep then awaits the
still-running task 1, whose error 2 is raised to the caller; second, an
interrupted run whose handler sweep cancels the pending task and raises
`CancelledError`, raised again by the finalization sweep. -/
theorem c7_later_error_wins_wit :
    run_in_threads [⟨.failure 1, 0, 0⟩, ⟨.failure 2, 0, 1⟩] 0 false none
      = (.error (.taskError 2),
          (⟨1, [⟨.failure 1, 0, 0, false⟩, ⟨.failure 2, 0, 1, false⟩], 0⟩ : St).shutdown) ∧
    run_in_threads [⟨.success 9, 3, 4⟩] 0 false (some 0)
      = (.error .cancelledError,
          (⟨0, [⟨.success 9, 3, 4, true⟩], 0⟩ : St).shutdown) := by
  constructor
  · exact (c7_later_error_wins [⟨.failure 1, 0, 0⟩, ⟨.failure 2, 0, 1⟩] 0 false none
      (by decide)).1 (.taskError 1) [1] []
      ⟨0, [⟨.failure 1, 0, 0, false⟩, ⟨.failure 2, 0, 1, false⟩], 0⟩ (.taskError 2)
      ⟨1, [⟨.failure 1, 0, 0, false⟩, ⟨.failure 2, 0, 1, false⟩], 0⟩
      (by decide) (by decide)
  · exact (c7_later_error_wins [⟨.success 9, 3, 4⟩] 0 false (some 0)
      (by decide)).2 [0] [] ⟨0, [⟨.success 9, 3, 4, false⟩], 0⟩ .cancelledError
      ⟨0, [⟨.success 9, 3, 4, true⟩], 0⟩ .cancelledError
      ⟨0, [⟨.success 9, 3, 4, true⟩], 0⟩
      (by decide) (by decide) (by decide)

/-- C8: when the sweep of `_cancel_threads` (after passing over handles
that are already settled successes) reaches a not-yet-terminal handle
whose cancellation attempt fails because the task has already started,
and a callback is supplied, it invokes `completed_callback(False)` (the
`cbFalse` counter increments), then blocks on `future.result()` until the
handle's outcome is available (the clock advances to its completion), and
re-raises the handle's error if the task failed — while a successful
outcome is discarded and the sweep moves on. -/
theorem c8_cancel_fail_cb_block (pre rest : List Nat) (i : Nat) (s : St)
    (hpre : ∀ j ∈ pre, SettledSuccess (s.fut j) s.time)
    (hnc : (s.fut i).cancelled = false)
    (hnd : ¬ (s.fut i).completeAt ≤ s.time)
    (hst : (s.fut i).startAt ≤ s.time) :
    cancel_threads true (pre ++ i :: rest) s =
      match (s.fut i).outcome with
      | .failure e =>
        (.error (.taskError e),
          ⟨max s.time (s.fut i).completeAt, s.store, s.cbFalse + 1⟩)
      | .success _ =>
        cancelThreadsGo true rest pre
          ⟨max s.time (s.fut i).completeAt, s.store, s.cbFalse + 1⟩ := by
  have hpass := cancelThreadsGo_settled_append true pre (i :: rest) [] s hpre
  show cancelThreadsGo true (pre ++ i :: rest) [] s = _
  rw [hpass, List.nil_append]
  cases hv : (s.fut i).outcome with
  | failure e =>
    rw [cancelThreadsGo_cons_running_fail true i rest pre s hnc hnd hst hv]
    simp
  | success v =>
    rw [cancelThreadsGo_cons_running_succ true i rest pre s hnc hnd hst hv]
    simp

/-- Witness for C8 at a concrete running-and-failing handle. -/
theorem c8_cancel_fail_cb_block_wit :
    cancel_threads true [0] ⟨0, [⟨.failure 4, 0, 2, false⟩], 0⟩
      = (.error (.taskError 4), ⟨2, [⟨.failure 4, 0, 2, false⟩], 1⟩) := by
  have h := c8_cancel_fail_cb_block [] [] 0 ⟨0, [⟨.failure 4, 0, 2, false⟩], 0⟩
    (by decide) (by decide) (by decide) (by decide)
  exact h

/-- C10: after the already-settled successful handles ahead of it, a
pending handle (not yet started) is cancelled successfully by the sweep,
and `future.result()` is still called on it unconditionally, raising
`CancelledError`: the sweep call aborts right there, independently of the
handles `rest` placed after it (they are never processed and the state
records only this handle's cancellation), and no success set is returned
at all — in particular the cancelled handle's outcome never appears in
any returned success set. -/
theorem c10_cancelled_aborts_sweep (hasCb : Bool) (pre rest : List Nat) (i : Nat) (s : St)
    (hpre : ∀ j ∈ pre, SettledSuccess (s.fut j) s.time)
    (hnc : (s.fut i).cancelled = false)
    (hnd : ¬ (s.fut i).completeAt ≤ s.time)
    (hpend : ¬ (s.fut i).startAt ≤ s.time) :
    cancel_threads hasCb (pre ++ i :: rest) s =
      (.error .cancelledError,
        ⟨s.time, s.store.set i { s.fut i with cancelled := true }, s.cbFalse⟩) := by
  have hpass := cancelThreadsGo_settled_append hasCb pre (i :: rest) [] s hpre
  show cancelThreadsGo hasCb (pre ++ i :: rest) [] s = _
  rw [hpass, List.nil_append]
  exact cancelThreadsGo_cons_pending hasCb i rest pre s hnc hnd hpend

/-- Witness for C10: handle 1 is a settled success, handle 0 is pending
and cancels, and a further handle id 5 after it is never processed. -/
theorem c10_cancelled_aborts_sweep_wit :
    cancel_threads true [1, 0, 5]
        ⟨0, [⟨.success 9, 3, 4, false⟩, ⟨.success 1, 0, 0, false⟩], 0⟩
      = (.error .cancelledError,
          ⟨0, [⟨.success 9, 3, 4, true⟩, ⟨.success 1, 0, 0, false⟩], 0⟩) := by
  have h := c10_cancelled_aborts_sweep true [1] [5] 0
    ⟨0, [⟨.success 9, 3, 4, false⟩, ⟨.success 1, 0, 0, false⟩], 0⟩
    (by decide) (by decide) (by decide) (by decide)
  exact h

/-- C4 is false as stated: task 0 fails with error 1 and is observed
first by the polling loop, but that error does not propagate — the
finalization sweep successfully cancels the pending task 1 and the
resulting `CancelledError` replaces the first observed error.  The sweep
also stops at that handle instead of running to completion. -/
theorem c4_first_error_cex :
    (run_in_threads [⟨.failure 1, 0, 0⟩, ⟨.success 5, 10, 11⟩] 0 false none).fst
      = .error .cancelledError ∧
    (Except.error .cancelledError : Except Err (List Nat)) ≠ .error (.taskError 1) := by
  constructor
  · decide
  · decide

/-- C4 (amended): the first error observed propagates out of
`run_in_threads` and the finalization sweep runs over (and awaits) every
remaining handle, provided the sweep itself surfaces no exception — here:
the first task fails at once and every other task has already started and
eventually succeeds.  When the sweep does raise (a successfully cancelled
pending handle, as in the counterexample), its error replaces the first
one. -/
theorem c4_first_error_propagates (e : Nat) (rest : List TaskSpec) (mw : Int) (hasCb : Bool)
    (hs : ∀ m ∈ rest, m.startAt = 0 ∧ m.outcome.isSuccess = true) :
    (run_in_threads (⟨.failure e, 0, 0⟩ :: rest) mw hasCb none).fst
      = .error (.taskError e) := by
  have hne : (⟨.failure e, 0, 0⟩ : TaskSpec) :: rest ≠ [] := by simp
  have hrange : List.range ((⟨.failure e, 0, 0⟩ : TaskSpec) :: rest).length
      = 0 :: List.map Nat.succ (List.range rest.length) := by
    rw [List.length_cons, List.range_succ_eq_map]
  have hstart : ∀ i ∈ List.map Nat.succ (List.range rest.length),
      StartedSuccess ((initSt (⟨.failure e, 0, 0⟩ :: rest)).fut i) := by
    intro i hi
    obtain ⟨j, hj, hji⟩ := List.mem_map.mp hi
    obtain ⟨m, hm, hf⟩ := initSt_fut_props rest (List.mem_range.mp hj)
    have hfut : (initSt (⟨.failure e, 0, 0⟩ :: rest)).fut i = (initSt rest).fut j := by
      rw [← hji]
      rfl
    rw [hfut, hf]
    exact ⟨rfl, (hs m hm).1, (hs m hm).2⟩
  by_cases hall : ((List.range ((⟨.failure e, 0, 0⟩ : TaskSpec) :: rest).length).all
      (fun i => ((initSt (⟨.failure e, 0, 0⟩ :: rest)).fut i).isDone
        (initSt (⟨.failure e, 0, 0⟩ :: rest)).time)) = true
  · have heq : pollLoop none (runFuel (⟨.failure e, 0, 0⟩ :: rest))
        (List.range ((⟨.failure e, 0, 0⟩ : TaskSpec) :: rest).length) []
        (initSt (⟨.failure e, 0, 0⟩ :: rest))
        = ((.normal, List.range ((⟨.failure e, 0, 0⟩ : TaskSpec) :: rest).length, []),
            initSt (⟨.failure e, 0, 0⟩ :: rest)) := by
      rw [show runFuel (⟨.failure e, 0, 0⟩ :: rest)
          = (((⟨.failure e, 0, 0⟩ : TaskSpec) :: rest).length
            + maxComplete (⟨.failure e, 0, 0⟩ :: rest) + 1) + 1 from rfl]
      simp only [pollLoop]
      rw [if_pos hall]
    have hsweep : cancel_threads hasCb
        (List.range ((⟨.failure e, 0, 0⟩ : TaskSpec) :: rest).length)
        (initSt (⟨.failure e, 0, 0⟩ :: rest))
        = (.error (.taskError e), initSt (⟨.failure e, 0, 0⟩ :: rest)) := by
      rw [hrange]
      show cancelThreadsGo hasCb (0 :: List.map Nat.succ (List.range rest.length)) [] _ = _
      exact cancelThreadsGo_cons_doneFail hasCb 0 (List.map Nat.succ (List.range rest.length))
        [] (initSt (⟨.failure e, 0, 0⟩ :: rest)) rfl (Nat.le_refl 0) rfl
    simp only [run_in_threads, heq, hsweep,
      if_neg (run_mw_pos (⟨.failure e, 0, 0⟩ :: rest) mw hne)]
  · have hfind : (List.range ((⟨.failure e, 0, 0⟩ : TaskSpec) :: rest).length).find?
        (fun i => ((initSt (⟨.failure e, 0, 0⟩ :: rest)).fut i).isDone
          (initSt (⟨.failure e, 0, 0⟩ :: rest)).time) = some 0 := by
      rw [hrange]
      exact List.find?_cons_of_pos _ rfl
    have hres : ((initSt (⟨.failure e, 0, 0⟩ :: rest)).fut 0).result
        (initSt (⟨.failure e, 0, 0⟩ :: rest)).time = (.error (.taskError e), 0) := rfl
    have herase : (List.range ((⟨.failure e, 0, 0⟩ : TaskSpec) :: rest).length).erase 0
        = List.map Nat.succ (List.range rest.length) := by
      rw [hrange]
      exact List.erase_cons_head 0 _
    have heq : pollLoop none (runFuel (⟨.failure e, 0, 0⟩ :: rest))
        (List.range ((⟨.failure e, 0, 0⟩ : TaskSpec) :: rest).length) []
        (initSt (⟨.failure e, 0, 0⟩ :: rest))
        = ((.errored (.taskError e), List.map Nat.succ (List.range rest.length), []),
            initSt (⟨.failure e, 0, 0⟩ :: rest)) := by
      rw [show runFuel (⟨.failure e, 0, 0⟩ :: rest)
          = (((⟨.failure e, 0, 0⟩ : TaskSpec) :: rest).length
            + maxComplete (⟨.failure e, 0, 0⟩ :: rest) + 1) + 1 from rfl]
      simp only [pollLoop, if_neg hall, hfind, hres, herase]
      rfl
    obtain ⟨l, s3, hswp, hst3, ht3, hl3⟩ :=
      cancelThreadsGo_started hasCb (List.map Nat.succ (List.range rest.length)) []
        (initSt (⟨.failure e, 0, 0⟩ :: rest)) hstart
        (fun j hj => absurd hj (List.not_mem_nil j))
    have hswp2 : cancel_threads hasCb (List.map Nat.succ (List.range rest.length))
        (initSt (⟨.failure e, 0, 0⟩ :: rest)) = (.ok l, s3) := hswp
    simp only [run_in_threads, heq, hswp2,
      if_neg (run_mw_pos (⟨.failure e, 0, 0⟩ :: rest) mw hne)]

/-- Witness for C4 (amended): the first task fails with error 6, the
second is already running and succeeds; error 6 reaches the caller. -/
theorem c4_first_error_propagates_wit :
    (run_in_threads [⟨.failure 6, 0, 0⟩, ⟨.success 5, 0, 3⟩] 0 false none).fst
      = .error (.taskError 6) :=
  c4_first_error_propagates 6 [⟨.success 5, 0, 3⟩] 0 false (by decide)

end Lisa
